import Mathlib

/-!
Shallow embedding of `monitors/api/procmonstat.py` (class `ProcMonStat`).

Modelling conventions:
* Python dicts are association lists `List (String × _)`, listed in the
  dict's iteration order — a Python 2 dict yields its keys in hash-slot
  order, not insertion order, so concrete multi-key states below list keys
  in the order the Python 2.7 hash table produces them, and all general
  theorems are parametric in the order.  Iteration over a dict is iteration
  over the list; lookup is first-match.
* Python floats are embedded as exact rationals `ℚ` (every IEEE float value is
  a dyadic rational); where the code takes a square root (`statistics.stdev`)
  the computation is carried out over `ℝ`, with the square-root function passed
  as a parameter so that the definitions stay computable and the faithful
  instance is obtained at `Real.sqrt`.
* Python exceptions are `Except`.  Methods that mutate `self` before raising
  return the partially mutated state inside the error, mirroring the fact that
  a Python caller that catches the exception observes those mutations.
-/

/-- Algorithm selector, from class `ProcMonStatAlg` (`MEAN = 0`, `MAX = 1`). -/
inductive ProcMonStatAlg
  | MEAN
  | MAX
deriving DecidableEq

/-- State of a `ProcMonStat` object, generic in the numeric carrier `α`. -/
structure ProcMonStat (α : Type) where
  multipliers : List (String × α)
  base_stat : List (String × α)
  base_ready : Bool
  rebase_threshold : α
  alg : ProcMonStatAlg
  base_history : List (String × List α)
deriving DecidableEq

/-- First-match lookup in an association list (Python `d[k]` / `k in d`). -/
def dictGet {β : Type} (k : String) : List (String × β) → Option β
  | [] => none
  | p :: rest => if p.1 = k then some p.2 else dictGet k rest

/-- Python `d[k] = v`: overwrite in place when the key exists, else add the
key.  A new key is appended at the end of the association list; its position
is immaterial to the model, because every mapping written through `dictSet`
is only read back through `dictGet` (nothing iterates over `base_stat`). -/
def dictSet {β : Type} (d : List (String × β)) (k : String) (v : β) :
    List (String × β) :=
  if (dictGet k d).isSome then
    d.map (fun p => if p.1 = k then (p.1, v) else p)
  else d ++ [(k, v)]

/-- `self._base_history[k].append(x)`: append `x` to the history list stored
under key `k`. -/
def histAppend (k : String) (x : ℚ) (hist : List (String × List ℚ)) :
    List (String × List ℚ) :=
  hist.map (fun p => if p.1 = k then (p.1, p.2 ++ [x]) else p)

/-- The fragment of Python values that a procmon stat block can evaluate to:
a numeric literal or a flat dict from string keys to numbers.  `eval` on the
extracted text is modelled by a parser over this fragment (`pyEval` below). -/
inductive PyVal
  | num (q : ℚ)
  | dict (entries : List (String × ℚ))
deriving DecidableEq

/-- Class constant `FIELD_DESC`. -/
def FIELD_DESC : List (String × String) :=
  [("cpu_sec", "Total CPU time (sec)"),
   ("total_sec", "Total exec time (sec)"),
   ("avg_cpu_percent", "Average CPU usage (percent)"),
   ("peak_cpu_percent", "Peak CPU usage (percent)"),
   ("avg_rss_size_kib", "Average RAM usage (KiB)"),
   ("peak_rss_size_kib", "Peak RAM usage (KiB)")]

/-- Class constant `DEFAULT_MULTIPLIERS`. -/
def DEFAULT_MULTIPLIERS : List (String × ℚ) :=
  [("cpu_sec", 2), ("avg_rss_size_kib", 2), ("peak_rss_size_kib", 3)]

/-- Class constant `DEFAULT_REBASE_THRESHOLD = 0.05`. -/
def DEFAULT_REBASE_THRESHOLD : ℚ := 1 / 20

/-- Zero-pad the decimal digits of `n` (with `0 ≤ n ≤ 999`) to width 3. -/
def pad3 (n : ℤ) : String :=
  let s := toString n
  if s.length = 1 then "00" ++ s else if s.length = 2 then "0" ++ s else s

/-- Python `'%.3f' % q`: fixed-point rendering with three decimals.  Rounding
of a value exactly between two representables differs (Python rounds the
underlying binary double to even); no claim exercises a tie. -/
def format3 (q : ℚ) : String :=
  let sgn := if q < 0 then "-" else ""
  let n : ℤ := round (|q| * 1000)
  sgn ++ toString (n / 1000) ++ "." ++ pad3 (n % 1000)

/-- The violation message built in `test_stat`:
`'%s is %.3f%% of baseline' % (FIELD_DESC[k], mx * 100)`. -/
def mkViolation (desc : String) (pct : ℚ) : String :=
  desc ++ " is " ++ format3 pct ++ "% of baseline"

/-- One iteration of the `for k in self.multipliers` loop of `test_stat` for
key `k` with configured multiplier `m`, acting on the accumulator
`(errors, suggest_rebase)`.  A key absent from the sample or from
`base_stat` is skipped.  Python float division by zero raises
`ZeroDivisionError`; looking up a key without a `FIELD_DESC` entry raises
`KeyError`. -/
def test_step (base d : List (String × ℚ)) (thr : ℚ)
    (acc : List String × Nat) (k : String) (m : ℚ) :
    Except String (List String × Nat) :=
  match dictGet k d, dictGet k base with
  | some x, some b =>
    if b = 0 then Except.error "float division by zero"
    else
      let mx := x / b
      if mx > m then
        match dictGet k FIELD_DESC with
        | some desc =>
          Except.ok (acc.1 ++ [mkViolation desc (mx * 100)],
                     if |mx - m| ≤ thr then acc.2 + 1 else acc.2)
        | none => Except.error ("KeyError: \x27" ++ k ++ "\x27")
      else Except.ok (acc.1, if |mx - m| ≤ thr then acc.2 + 1 else acc.2)
  | _, _ => Except.ok acc

/-- The `for k in self.multipliers` loop of `test_stat`. -/
def testLoop (base d : List (String × ℚ)) (thr : ℚ) :
    List (String × ℚ) → (List String × Nat) →
    Except String (List String × Nat)
  | [], acc => Except.ok acc
  | km :: rest, acc =>
    match test_step base d thr acc km.1 km.2 with
    | Except.ok acc2 => testLoop base d thr rest acc2
    | Except.error e => Except.error e

/-- `ProcMonStat.test_stat` on a pre-parsed sample dict: returns
`(len(errors) == 0, errors, suggest_rebase)`. -/
def test_stat (s : ProcMonStat ℚ) (d : List (String × ℚ)) :
    Except String (Bool × List String × Nat) :=
  match testLoop s.base_stat d s.rebase_threshold s.multipliers ([], 0) with
  | Except.ok (errs, n) => Except.ok (errs.length == 0, errs, n)
  | Except.error e => Except.error e

/-- The `for k in self.multipliers` loop of `add_baseline`: appends
`stat_dict[k]` to `self._base_history[k]` key by key; the first configured
key absent from the sample raises
`ValueError('Failed to add baseline: key ' + str(e) + ' is missing.')`,
leaving the appends already performed in place (the error carries the
partially updated history). -/
def addLoop (d : List (String × ℚ)) :
    List (String × ℚ) → List (String × List ℚ) →
    Except (String × List (String × List ℚ)) (List (String × List ℚ))
  | [], hist => Except.ok hist
  | (k, _) :: rest, hist =>
    match dictGet k d with
    | some x => addLoop d rest (histAppend k x hist)
    | none =>
      Except.error ("Failed to add baseline: key \x27" ++ k ++ "\x27 is missing.",
                    hist)

/-- `ProcMonStat.add_baseline`.  A non-dict argument raises
`ValueError('Stat baseline must be a stat dict.')` before any mutation. -/
def add_baseline (s : ProcMonStat ℚ) (v : PyVal) :
    Except (String × ProcMonStat ℚ) (ProcMonStat ℚ) :=
  match v with
  | PyVal.num _ => Except.error ("Stat baseline must be a stat dict.", s)
  | PyVal.dict d =>
    match addLoop d s.multipliers s.base_history with
    | Except.ok h => Except.ok { s with base_history := h }
    | Except.error (e, h) => Except.error (e, { s with base_history := h })

/-- Python `max(list)`: raises `ValueError` on an empty sequence. -/
def pyMax {α : Type} [LinearOrder α] : List α → Except String α
  | [] => Except.error "max() arg is an empty sequence"
  | x :: xs => Except.ok (xs.foldl max x)

/-- `statistics.mean`: the exact arithmetic mean; raises `StatisticsError`
on an empty sequence.  (The Python module computes via exact fractions and
rounds only on the final conversion; the rounding is idealised away.) -/
def pyMean {α : Type} [LinearOrderedField α] (l : List α) : Except String α :=
  if l.length = 0 then Except.error "mean requires at least one data point"
  else Except.ok (l.sum / l.length)

/-- `statistics.stdev`: square root of the corrected (n−1) sample variance;
raises `StatisticsError` for fewer than two data points.  The square-root
function `f` on the carrier is a parameter; the faithful instance is
`Real.sqrt`. -/
def pyStdev {α : Type} [LinearOrderedField α] (f : α → α) (l : List α) :
    Except String α :=
  if l.length < 2 then Except.error "variance requires at least two data points"
  else
    Except.ok (f ((l.map (fun x => (x - l.sum / l.length) ^ 2)).sum /
                  ((l.length : α) - 1)))

/-- The per-key computation of `calc_baseline`: `max(history)` for the MAX
algorithm, `avg + dev + dev` with `avg = mean(history)`,
`dev = stdev(history)` for the MEAN algorithm. -/
def calcStep {α : Type} [LinearOrderedField α] (f : α → α)
    (alg : ProcMonStatAlg) (h : List α) : Except String α :=
  match alg with
  | ProcMonStatAlg.MAX => pyMax h
  | ProcMonStatAlg.MEAN =>
    match pyMean h with
    | Except.error e => Except.error e
    | Except.ok avg =>
      match pyStdev f h with
      | Except.error e => Except.error e
      | Except.ok dev => Except.ok (avg + dev + dev)

/-- The per-key loop of `calc_baseline`, writing `self.base_stat[k]` for each
configured key in order; an exception carries the `base_stat` entries already
written. -/
def calcLoop {α : Type} [LinearOrderedField α] (f : α → α)
    (alg : ProcMonStatAlg) (hist : List (String × List α)) :
    List (String × α) → List (String × α) →
    Except (String × List (String × α)) (List (String × α))
  | [], base => Except.ok base
  | (k, _) :: rest, base =>
    match calcStep f alg ((dictGet k hist).getD []) with
    | Except.ok v => calcLoop f alg hist rest (dictSet base k v)
    | Except.error e => Except.error (e, base)

/-- `ProcMonStat.calc_baseline`: compute every baseline value, then clear
every history sequence and set `base_ready`.  (The source uses one loop per
algorithm; since the branch is loop-invariant this is the same as branching
inside a single loop, which is how `calcStep` is organised.) -/
def calc_baseline {α : Type} [LinearOrderedField α] (f : α → α)
    (s : ProcMonStat α) : Except (String × ProcMonStat α) (ProcMonStat α) :=
  match calcLoop f s.alg s.base_history s.multipliers s.base_stat with
  | Except.ok base =>
    Except.ok { s with
      base_stat := base,
      base_history := s.base_history.map (fun p => (p.1, ([] : List α))),
      base_ready := true }
  | Except.error (e, base) => Except.error (e, { s with base_stat := base })

/-- The spec's "arithmetic mean of the history" (refinement target for C4). -/
noncomputable def specMean (l : List ℝ) : ℝ := l.sum / l.length

/-- The spec's "sample (corrected) standard deviation of the history"
(refinement target for C4). -/
noncomputable def specStdev (l : List ℝ) : ℝ :=
  Real.sqrt ((l.map (fun x => (x - specMean l) ^ 2)).sum / ((l.length : ℝ) - 1))

deriving instance DecidableEq for Except

/-- A tracker with the configuration of the spec's `test()` examples:
multiplier `{"cpu_sec": 2.0}`, frozen baseline `{"cpu_sec": 10.0}`, default
rebase threshold `0.05`. -/
def cpuState : ProcMonStat ℚ :=
  { multipliers := [("cpu_sec", 2)], base_stat := [("cpu_sec", 10)],
    base_ready := true, rebase_threshold := 1/20, alg := ProcMonStatAlg.MAX,
    base_history := [("cpu_sec", [])] }

/-- A freshly constructed tracker with the two configured keys `total_sec`
and `cpu_sec`.  The lists are in the dict's real iteration order: a Python
2.7 dict holding exactly the keys `cpu_sec` and `total_sec` places them in
hash slots 7 and 1 respectively, so iteration yields `total_sec` first.
`_base_history` is built over the same keys and iterates the same way. -/
def c1state : ProcMonStat ℚ :=
  { multipliers := [("total_sec", 2), ("cpu_sec", 2)], base_stat := [],
    base_ready := false, rebase_threshold := 1/20, alg := ProcMonStatAlg.MAX,
    base_history := [("total_sec", []), ("cpu_sec", [])] }

/-- The state observed after `add_baseline c1state {"total_sec": 5}` raises:
the history of `total_sec` (iterated first) has already received the value
`5` when the lookup of `cpu_sec` in the sample fails. -/
def c1part : ProcMonStat ℚ :=
  { c1state with base_history := [("total_sec", [5]), ("cpu_sec", [])] }

/-- A max-algorithm tracker over `ℝ` with accumulated history `[1, 3]`. -/
noncomputable def s3w : ProcMonStat ℝ :=
  { multipliers := [("cpu_sec", 2)], base_stat := [], base_ready := false,
    rebase_threshold := 1/20, alg := ProcMonStatAlg.MAX,
    base_history := [("cpu_sec", [1, 3])] }

/-- The same tracker using the mean algorithm. -/
noncomputable def s4w : ProcMonStat ℝ :=
  { s3w with alg := ProcMonStatAlg.MEAN }

/-- A max-algorithm tracker over `ℝ` with a single accumulated sample. -/
noncomputable def s8w : ProcMonStat ℝ :=
  { multipliers := [("cpu_sec", 2)], base_stat := [], base_ready := false,
    rebase_threshold := 1/20, alg := ProcMonStatAlg.MAX,
    base_history := [("cpu_sec", [2])] }

/-! ### Helper lemmas: first-occurrence semantics of `splitOnce` -/

@[simp] theorem dictGet_nil {β : Type} (k : String) :
    dictGet k ([] : List (String × β)) = none := rfl

@[simp] theorem dictGet_cons {β : Type} (k : String) (p : String × β)
    (rest : List (String × β)) :
    dictGet k (p :: rest) = if p.1 = k then some p.2 else dictGet k rest := rfl

theorem dictGet_overwrite_ne {β : Type} {k k2 : String} (v : β)
    (d : List (String × β)) (h : k ≠ k2) :
    dictGet k2 (d.map (fun p => if p.1 = k then (p.1, v) else p)) =
      dictGet k2 d := by
  induction d with
  | nil => rfl
  | cons p rest ih =>
    by_cases hp : p.1 = k
    · have hp2 : ¬ p.1 = k2 := fun hc => h (hp ▸ hc)
      simp [hp, hp2, h, ih]
    · by_cases hq : p.1 = k2
      · simp [hp, hq, Ne.symm h]
      · simp [hp, hq, ih]

theorem dictGet_overwrite_self {β : Type} {k : String} (v : β)
    (d : List (String × β)) :
    dictGet k (d.map (fun p => if p.1 = k then (p.1, v) else p)) =
      (dictGet k d).map (fun _ => v) := by
  induction d with
  | nil => rfl
  | cons p rest ih =>
    by_cases hp : p.1 = k
    · simp [hp]
    · simp [hp, ih]

theorem dictGet_append_single {β : Type} {k : String} (v : β) (k2 : String)
    (d : List (String × β)) (hnone : dictGet k d = none) :
    dictGet k2 (d ++ [(k, v)]) = if k = k2 then some v else dictGet k2 d := by
  induction d with
  | nil => simp [dictGet]
  | cons p rest ih =>
    simp only [dictGet_cons, if_pos, if_neg] at hnone
    by_cases hp : p.1 = k
    · rw [if_pos hp] at hnone; exact absurd hnone (by simp)
    · rw [if_neg hp] at hnone
      by_cases hq : p.1 = k2
      · have : ¬ k = k2 := fun hc => hp (by rw [hc, hq])
        simp [hq, this]
      · simp only [List.cons_append, dictGet_cons, if_neg hq]
        exact ih hnone

theorem dictGet_dictSet {β : Type} (d : List (String × β)) (k k2 : String)
    (v : β) :
    dictGet k2 (dictSet d k v) = if k = k2 then some v else dictGet k2 d := by
  by_cases hmem : (dictGet k d).isSome
  · rw [dictSet, if_pos hmem]
    by_cases hkk : k = k2
    · subst hkk
      rw [if_pos rfl, dictGet_overwrite_self]
      obtain ⟨w, hw⟩ := Option.isSome_iff_exists.mp hmem
      rw [hw]
      rfl
    · rw [if_neg hkk, dictGet_overwrite_ne v d hkk]
  · rw [dictSet, if_neg hmem]
    exact dictGet_append_single v k2 d (Option.not_isSome_iff_eq_none.mp hmem)

theorem dictGet_histAppend (k k2 : String) (x : ℚ)
    (hist : List (String × List ℚ)) :
    dictGet k2 (histAppend k x hist) =
      if k = k2 then (dictGet k2 hist).map (fun l => l ++ [x])
      else dictGet k2 hist := by
  induction hist with
  | nil => simp [histAppend]
  | cons p rest ih
  =>
    by_cases hp : p.1 = k
    · by_cases hq : p.1 = k2
      · have hkk : k = k2 := by rw [← hp, hq]
        simp [histAppend, hp, hq, hkk]
      · have hkk : ¬ k = k2 := fun hc => hq (by rw [hp, hc])
        simp only [histAppend, List.map_cons, if_pos hp, dictGet_cons, if_neg hq]
        simp only [histAppend] at ih
        simp [ih, hkk]
    · by_cases hq : p.1 = k2
      · by_cases hkk : k = k2
        · exact absurd (by rw [hq, ← hkk] : p.1 = k) hp
        · simp [histAppend, hp, hq, hkk, Ne.symm hkk]
      · simp only [histAppend, List.map_cons, if_neg hp, dictGet_cons, if_neg hq]
        simp only [histAppend] at ih
        exact ih

/-! ### Helper lemmas: the `test_stat` loop -/

theorem testLoop_error_of_mem {base d : List (String × ℚ)} {thr : ℚ}
    {k : String} {m : ℚ} {l : List (String × ℚ)}
    (hmem : (k, m) ∈ l)
    (hstep : ∀ acc, ∃ e, test_step base d thr acc k m = Except.error e) :
    ∀ acc, ∃ e, testLoop base d thr l acc = Except.error e := by
  induction l with
  | nil => exact absurd hmem (List.not_mem_nil _)
  | cons km rest ih =>
    intro acc
    rw [testLoop]
    cases hs : test_step base d thr acc km.1 km.2 with
    | error e => exact ⟨e, rfl⟩
    | ok acc2 =>
      rcases List.mem_cons.mp hmem with heq | htail
      · obtain ⟨e, he⟩ := hstep acc
        rw [← heq] at hs
        rw [hs] at he
        exact absurd he (by simp)
      · exact ih htail acc2

/-! ### Helper lemmas: `max`, `mean`, `stdev` and the `calc_baseline` loop -/

theorem foldl_max_spec {α : Type} [LinearOrder α] (xs : List α) (x : α) :
    xs.foldl max x ∈ x :: xs ∧ x ≤ xs.foldl max x ∧
      ∀ y ∈ xs, y ≤ xs.foldl max x := by
  induction xs generalizing x with
  | nil => exact ⟨List.mem_singleton.mpr rfl, le_refl x, by simp⟩
  | cons z zs ih =>
    obtain ⟨hmem, hle, hall⟩ := ih (max x z)
    refine ⟨?_, ?_, ?_⟩
    · rw [List.foldl_cons]
      rcases List.mem_cons.mp hmem with heq | htail
      · rcases max_choice x z with hx | hz
        · rw [heq, hx]; exact List.mem_cons_self _ _
        · rw [heq, hz]; exact List.mem_cons.mpr (Or.inr (List.mem_cons_self _ _))
      · exact List.mem_cons.mpr (Or.inr (List.mem_cons.mpr (Or.inr htail)))
    · rw [List.foldl_cons]
      exact le_trans (le_max_left x z) hle
    · intro y hy
      rw [List.foldl_cons]
      rcases List.mem_cons.mp hy with heq | htail
      · rw [heq]; exact le_trans (le_max_right x z) hle
      · exact hall y htail

theorem pyMax_ok {α : Type} [LinearOrder α] {l : List α} {v : α}
    (h : pyMax l = Except.ok v) : v ∈ l ∧ ∀ x ∈ l, x ≤ v := by
  cases l with
  | nil => exact absurd h (by simp [pyMax])
  | cons x xs =>
    rw [pyMax] at h
    injection h with hv
    obtain ⟨hmem, hle, hall⟩ := foldl_max_spec xs x
    subst hv
    refine ⟨hmem, ?_⟩
    intro y hy
    rcases List.mem_cons.mp hy with heq | htail
    · rw [heq]; exact hle
    · exact hall y htail

theorem pyMax_error {α : Type} [LinearOrder α] {l : List α} {e : String}
    (h : pyMax l = Except.error e) :
    e = "max() arg is an empty sequence" ∧ l = [] := by
  cases l with
  | nil =>
    rw [pyMax] at h
    injection h with he
    exact ⟨he.symm, rfl⟩
  | cons x xs => exact absurd h (by simp [pyMax])

theorem calcLoop_ok_preserve {α : Type} [LinearOrderedField α] {f : α → α}
    {alg : ProcMonStatAlg} {hist : List (String × List α)}
    {l base base2 : List (String × α)} {k : String} {v : α}
    (hok : calcLoop f alg hist l base = Except.ok base2)
    (hbase : dictGet k base = some v)
    (hfuture : ∀ m, (k, m) ∈ l →
      calcStep f alg ((dictGet k hist).getD []) = Except.ok v) :
    dictGet k base2 = some v := by
  induction l generalizing base with
  | nil =>
    rw [calcLoop] at hok
    injection hok with hb
    rw [← hb]
    exact hbase
  | cons km rest ih =>
    obtain ⟨k0, m0⟩ := km
    rw [calcLoop] at hok
    cases hs : calcStep f alg ((dictGet k0 hist).getD []) with
    | error e => rw [hs] at hok; exact absurd hok (by simp)
    | ok v0 =>
      rw [hs] at hok
      refine ih hok ?_ ?_
      · rw [dictGet_dictSet]
        by_cases hkk : k0 = k
        · rw [if_pos hkk]
          subst hkk
          have := hfuture m0 (List.mem_cons_self _ _)
          rw [this] at hs
          injection hs with hv
          rw [hv]
        · rw [if_neg hkk]; exact hbase
      · intro m hm
        exact hfuture m (List.mem_cons.mpr (Or.inr hm))

theorem calcLoop_mem_ok {α : Type} [LinearOrderedField α] {f : α → α}
    {alg : ProcMonStatAlg} {hist : List (String × List α)}
    {l base base2 : List (String × α)} {k : String} {m : α} {v : α}
    (hmem : (k, m) ∈ l)
    (hok : calcLoop f alg hist l base = Except.ok base2)
    (hstep : calcStep f alg ((dictGet k hist).getD []) = Except.ok v) :
    dictGet k base2 = some v := by
  induction l generalizing base with
  | nil => exact absurd hmem (List.not_mem_nil _)
  | cons km rest ih =>
    obtain ⟨k0, m0⟩ := km
    rw [calcLoop] at hok
    cases hs : calcStep f alg ((dictGet k0 hist).getD []) with
    | error e => rw [hs] at hok; exact absurd hok (by simp)
    | ok v0 =>
      rw [hs] at hok
      rcases List.mem_cons.mp hmem with heq | htail
      · have hk0 : k0 = k := by
          have := congrArg Prod.fst heq
          exact this.symm
        subst hk0
        rw [hstep] at hs
        injection hs with hv
        refine calcLoop_ok_preserve hok ?_ ?_
        · rw [dictGet_dictSet, if_pos rfl, hv]
        · intro m2 hm2
          exact hstep
      · exact ih htail hok

theorem calcLoop_error_exists {α : Type} [LinearOrderedField α] {f : α → α}
    {alg : ProcMonStatAlg} {hist : List (String × List α)}
    {l : List (String × α)} {k : String} {m : α} {e : String}
    (hmem : (k, m) ∈ l)
    (hstep : calcStep f alg ((dictGet k hist).getD []) = Except.error e) :
    ∀ base, ∃ e2 st, calcLoop f alg hist l base = Except.error (e2, st) := by
  induction l with
  | nil => exact absurd hmem (List.not_mem_nil _)
  | cons km rest ih =>
    intro base
    obtain ⟨k0, m0⟩ := km
    rw [calcLoop]
    cases hs : calcStep f alg ((dictGet k0 hist).getD []) with
    | error e0 => exact ⟨e0, base, rfl⟩
    | ok v0 =>
      rcases List.mem_cons.mp hmem with heq | htail
      · have hk0 : k0 = k := (congrArg Prod.fst heq).symm
        subst hk0
        rw [hstep] at hs
        exact absurd hs (by simp)
      · exact ih htail (dictSet base k0 v0)

theorem calcLoop_max_error {α : Type} [LinearOrderedField α] (f : α → α)
    {hist : List (String × List α)} {l : List (String × α)} {k : String}
    {m : α}
    (hmem : (k, m) ∈ l)
    (hhist : dictGet k hist = some ([] : List α)) :
    ∀ base, ∃ st, calcLoop f ProcMonStatAlg.MAX hist l base =
      Except.error ("max() arg is an empty sequence", st) := by
  induction l with
  | nil => exact absurd hmem (List.not_mem_nil _)
  | cons km rest ih =>
    intro base
    obtain ⟨k0, m0⟩ := km
    rw [calcLoop]
    cases hs : calcStep f ProcMonStatAlg.MAX ((dictGet k0 hist).getD []) with
    | error e0 =>
      have he0 : e0 = "max() arg is an empty sequence" := by
        rw [calcStep] at hs
        exact (pyMax_error hs).1
      rw [he0]
      exact ⟨base, rfl⟩
    | ok v0 =>
      rcases List.mem_cons.mp hmem with heq | htail
      · exfalso
        have hk0 : k0 = k := (congrArg Prod.fst heq).symm
        subst hk0
        rw [hhist] at hs
        rw [calcStep] at hs
        simp only [Option.getD_some] at hs
        rw [pyMax] at hs
        exact Except.noConfusion hs
      · exact ih htail (dictSet base k0 v0)

theorem calcStep_mean_ok {l : List ℝ} (h2 : 2 ≤ l.length) :
    calcStep Real.sqrt ProcMonStatAlg.MEAN l =
      Except.ok (specMean l + 2 * specStdev l) := by
  have h0 : ¬ l.length = 0 := by omega
  have h1 : ¬ l.length < 2 := by omega
  rw [calcStep, pyMean, if_neg h0, pyStdev, if_neg h1]
  have : specMean l + specStdev l + specStdev l = specMean l + 2 * specStdev l := by
    ring
  exact congrArg Except.ok this

theorem calcStep_mean_error {α : Type} [LinearOrderedField α] (f : α → α)
    {l : List α} (h2 : l.length < 2) :
    ∃ e, calcStep f ProcMonStatAlg.MEAN l = Except.error e := by
  rw [calcStep]
  by_cases h0 : l.length = 0
  · rw [pyMean, if_pos h0]
    exact ⟨_, rfl⟩
  · rw [pyMean, if_neg h0, pyStdev, if_pos h2]
    exact ⟨_, rfl⟩

/-! ### Helper lemma: `add_baseline` stops at the first missing key, with the
earlier appends already performed -/

theorem addLoop_first_missing (d : List (String × ℚ)) (k : String) (mv : ℚ)
    (m2 : List (String × ℚ)) :
    ∀ m1 : List (String × ℚ), (m1.map Prod.fst).Nodup →
    k ∉ m1.map Prod.fst →
    (∀ p ∈ m1, (dictGet p.1 d).isSome = true) →
    dictGet k d = none →
    ∀ hist, ∃ st,
      addLoop d (m1 ++ (k, mv) :: m2) hist =
        Except.error
          ("Failed to add baseline: key \x27" ++ k ++ "\x27 is missing.", st) ∧
      (∀ k2 mv2 x, (k2, mv2) ∈ m1 → dictGet k2 d = some x →
         dictGet k2 st = (dictGet k2 hist).map (fun l => l ++ [x])) ∧
      (∀ k3, k3 ∉ m1.map Prod.fst → dictGet k3 st = dictGet k3 hist) := by
  intro m1
  induction m1 with
  | nil =>
    intro _ _ _ hmiss hist
    refine ⟨hist, ?_, ?_, ?_⟩
    · rw [List.nil_append, addLoop, hmiss]
    · intro k2 mv2 x hmem
      exact absurd hmem (List.not_mem_nil _)
    · intro k3 _
      rfl
  | cons p m1t ih =>
    intro hnodup hk hpres hmiss hist
    obtain ⟨k0, mv0⟩ := p
    have hpres0 : (dictGet k0 d).isSome = true :=
      hpres (k0, mv0) (List.mem_cons_self _ _)
    obtain ⟨x0, hx0⟩ := Option.isSome_iff_exists.mp hpres0
    have hn : (k0 :: m1t.map Prod.fst).Nodup := by
      simpa only [List.map_cons] using hnodup
    have hk0notin : k0 ∉ m1t.map Prod.fst := (List.nodup_cons.mp hn).1
    have hnodup2 : (m1t.map Prod.fst).Nodup := (List.nodup_cons.mp hn).2
    have hk2 : k ∉ m1t.map Prod.fst := by
      intro hc
      exact hk (by simp [hc])
    have hpres2 : ∀ p ∈ m1t, (dictGet p.1 d).isSome = true :=
      fun p hp => hpres p (List.mem_cons.mpr (Or.inr hp))
    obtain ⟨st, hrun, hprop1, hprop2⟩ :=
      ih hnodup2 hk2 hpres2 hmiss (histAppend k0 x0 hist)
    refine ⟨st, ?_, ?_, ?_⟩
    · rw [List.cons_append, addLoop, hx0]
      exact hrun
    · intro k2 mv2 x hmem hx
      rcases List.mem_cons.mp hmem with heq | htail
      · have hk20 : k2 = k0 := congrArg Prod.fst heq
        subst hk20
        rw [hx0] at hx
        injection hx with hxx
        subst hxx
        rw [hprop2 k2 hk0notin, dictGet_histAppend, if_pos rfl]
      · have hne : k0 ≠ k2 := by
          intro hc
          exact hk0notin (hc ▸ List.mem_map_of_mem Prod.fst htail)
        rw [hprop1 k2 mv2 x htail hx, dictGet_histAppend, if_neg hne]
    · intro k3 hk3
      have hk30 : k0 ≠ k3 := by
        intro hc
        exact hk3 (by simp [← hc])
      have hk3t : k3 ∉ m1t.map Prod.fst := by
        intro hc
        exact hk3 (by simp [hc])
      rw [hprop2 k3 hk3t, dictGet_histAppend, if_neg hk30]

/-! ### Claims about `test_stat` -/

/-- Claim C5: for every configured key `k` present in both the sample and the
baseline value mapping (with a nonzero baseline value and a known field
description), the `test_stat` loop body appends the violation message for `k`
exactly when the ratio `sample[k]/baseline[k]` is strictly greater than the
configured multiplier, the message carrying the ratio times 100 formatted to
three decimals; the returned pass boolean is true exactly when the violation
list is empty; and on the concrete instance with baseline `{"cpu_sec": 10}`,
multiplier `{"cpu_sec": 2}` and sample `{"cpu_sec": 25}`, `test_stat` returns
pass = false and exactly one violation message containing `250.000%`. -/
theorem test_stat_violation_claim5 :
    (∀ (base d : List (String × ℚ)) (thr : ℚ) (acc : List String × Nat)
       (k : String) (m x b : ℚ) (desc : String),
       dictGet k d = some x → dictGet k base = some b → b ≠ 0 →
       dictGet k FIELD_DESC = some desc →
       ∃ n, test_step base d thr acc k m =
         Except.ok ((if x / b > m then
                       acc.1 ++ [mkViolation desc (x / b * 100)]
                     else acc.1), n))
  ∧ (∀ (s : ProcMonStat ℚ) (d : List (String × ℚ)) p errs n,
       test_stat s d = Except.ok (p, errs, n) → (p = true ↔ errs = []))
  ∧ test_stat cpuState [("cpu_sec", 25)] =
      Except.ok (false, ["Total CPU time (sec) is 250.000% of baseline"], 0) := by
  refine ⟨?_, ?_, ?_⟩
  · intro base d thr acc k m x b desc hx hb hb0 hdesc
    rw [test_step, hx, hb]
    simp only [if_neg hb0]
    by_cases hgt : x / b > m
    · rw [if_pos hgt, if_pos hgt, hdesc]
      exact ⟨_, rfl⟩
    · rw [if_neg hgt, if_neg hgt]
      exact ⟨_, rfl⟩
  · intro s d p errs n h
    rw [test_stat] at h
    cases hres : testLoop s.base_stat d s.rebase_threshold s.multipliers ([], 0) with
    | error e => rw [hres] at h; exact absurd h (by simp)
    | ok acc =>
      obtain ⟨errs0, n0⟩ := acc
      rw [hres] at h
      injection h with h1
      injection h1 with hp h2
      injection h2 with herr hn
      subst hp
      subst herr
      simp [List.length_eq_zero]
  · with_unfolding_all decide

/-- Witness for C5 at the spec's configuration: baseline 10, sample 25,
multiplier 2, threshold 1/20. -/
theorem test_stat_violation_claim5_witness :
    ∃ n, test_step [("cpu_sec", 10)] [("cpu_sec", 25)] (1/20) ([], 0)
        "cpu_sec" 2 =
      Except.ok ((if (25 : ℚ) / 10 > 2 then
                    [] ++ [mkViolation "Total CPU time (sec)" ((25 : ℚ) / 10 * 100)]
                  else []), n) :=
  test_stat_violation_claim5.1 [("cpu_sec", 10)] [("cpu_sec", 25)] (1/20)
    ([], 0) "cpu_sec" 2 25 10 "Total CPU time (sec)"
    (by with_unfolding_all decide) (by with_unfolding_all decide)
    (by with_unfolding_all decide) (by with_unfolding_all decide)

/-- Claim C6: for every configured key `k` present in both the sample and the
baseline value mapping (nonzero baseline, known description), the `test_stat`
loop body increments the rebase counter exactly when `|ratio − multiplier|` is
at most the rebase threshold, independently of the violation check; and on the
concrete instance with sample `{"cpu_sec": 20.5}` both checks fire: rebase
counter 1 and pass = false. -/
theorem test_stat_rebase_claim6 :
    (∀ (base d : List (String × ℚ)) (thr : ℚ) (acc : List String × Nat)
       (k : String) (m x b : ℚ) (desc : String),
       dictGet k d = some x → dictGet k base = some b → b ≠ 0 →
       dictGet k FIELD_DESC = some desc →
       ∃ es, test_step base d thr acc k m =
         Except.ok (es, if |x / b - m| ≤ thr then acc.2 + 1 else acc.2))
  ∧ test_stat cpuState [("cpu_sec", 20.5)] =
      Except.ok (false, ["Total CPU time (sec) is 205.000% of baseline"], 1) := by
  refine ⟨?_, ?_⟩
  · intro base d thr acc k m x b desc hx hb hb0 hdesc
    rw [test_step, hx, hb]
    simp only [if_neg hb0]
    by_cases hgt : x / b > m
    · rw [if_pos hgt, hdesc]
      exact ⟨_, rfl⟩
    · rw [if_neg hgt]
      exact ⟨_, rfl⟩
  · with_unfolding_all decide

/-- Witness for C6 at the spec's configuration: sample 20.5, baseline 10,
multiplier 2, threshold 1/20. -/
theorem test_stat_rebase_claim6_witness :
    ∃ es, test_step [("cpu_sec", 10)] [("cpu_sec", 20.5)] (1/20) ([], 0)
        "cpu_sec" 2 =
      Except.ok (es, if |(20.5 : ℚ) / 10 - 2| ≤ 1/20 then 0 + 1 else 0) :=
  test_stat_rebase_claim6.1 [("cpu_sec", 10)] [("cpu_sec", 20.5)] (1/20)
    ([], 0) "cpu_sec" 2 20.5 10 "Total CPU time (sec)"
    (by with_unfolding_all decide) (by with_unfolding_all decide)
    (by with_unfolding_all decide) (by with_unfolding_all decide)

/-- Claim C7: the `test_stat` loop body silently skips any configured key
absent from the sample or from the baseline value mapping (no error, no
contribution to any output), and a tracker whose baseline value mapping is
empty passes trivially: `test_stat` returns `(true, [], 0)` on every sample. -/
theorem test_stat_skip_claim7 :
    (∀ (base d : List (String × ℚ)) (thr : ℚ) (acc : List String × Nat)
       (k : String) (m : ℚ),
       dictGet k d = none ∨ dictGet k base = none →
       test_step base d thr acc k m = Except.ok acc)
  ∧ (∀ (s : ProcMonStat ℚ) (d : List (String × ℚ)), s.base_stat = [] →
       test_stat s d = Except.ok (true, [], 0)) := by
  have hstep : ∀ (base d : List (String × ℚ)) (thr : ℚ)
      (acc : List String × Nat) (k : String) (m : ℚ),
      dictGet k d = none ∨ dictGet k base = none →
      test_step base d thr acc k m = Except.ok acc := by
    intro base d thr acc k m h
    rcases h with hd | hb
    · rw [test_step, hd]
    · rw [test_step, hb]
      cases dictGet k d <;> rfl
  refine ⟨hstep, ?_⟩
  intro s d hempty
  have hloop : ∀ (l : List (String × ℚ)) acc,
      testLoop s.base_stat d s.rebase_threshold l acc = Except.ok acc := by
    intro l
    induction l with
    | nil => intro acc; rfl
    | cons km rest ih =>
      intro acc
      rw [testLoop, hstep s.base_stat d s.rebase_threshold acc km.1 km.2
        (Or.inr (by rw [hempty]; rfl))]
      exact ih acc
  rw [test_stat, hloop s.multipliers ([], 0)]
  rfl

/-- Witness for C7: a tracker that was never finalized (empty baseline value
mapping) trivially passes the sample `{"cpu_sec": 25}`. -/
theorem test_stat_skip_claim7_witness :
    test_stat { cpuState with base_stat := [] } [("cpu_sec", 25)] =
      Except.ok (true, [], 0) :=
  test_stat_skip_claim7.2 { cpuState with base_stat := [] }
    [("cpu_sec", 25)] rfl

/-- Claim C10: when the baseline value stored for a configured key is zero and
the key is present in the sample, the `test_stat` loop body raises the
division-by-zero error for that key, and the whole `test_stat` call fails
with an error — an edge case the spec does not mention. -/
theorem test_stat_divzero_claim10 :
    (∀ (base d : List (String × ℚ)) (thr : ℚ) (acc : List String × Nat)
       (k : String) (m x : ℚ),
       dictGet k d = some x → dictGet k base = some 0 →
       test_step base d thr acc k m = Except.error "float division by zero")
  ∧ (∀ (s : ProcMonStat ℚ) (d : List (String × ℚ)) (k : String) (m x : ℚ),
       (k, m) ∈ s.multipliers → dictGet k d = some x →
       dictGet k s.base_stat = some 0 →
       ∃ e, test_stat s d = Except.error e) := by
  have hstep : ∀ (base d : List (String × ℚ)) (thr : ℚ)
      (acc : List String × Nat) (k : String) (m x : ℚ),
      dictGet k d = some x → dictGet k base = some 0 →
      test_step base d thr acc k m = Except.error "float division by zero" := by
    intro base d thr acc k m x hx hb
    rw [test_step, hx, hb]
    simp
  refine ⟨hstep, ?_⟩
  intro s d k m x hmem hx hb
  obtain ⟨e, he⟩ := testLoop_error_of_mem hmem
    (fun acc => ⟨"float division by zero",
      hstep s.base_stat d s.rebase_threshold acc k m x hx hb⟩) ([], 0)
  rw [test_stat, he]
  exact ⟨e, rfl⟩

/-- Witness for C10: a tracker whose frozen baseline for `cpu_sec` is zero
fails with an error on the sample `{"cpu_sec": 25}`. -/
theorem test_stat_divzero_claim10_witness :
    ∃ e, test_stat { cpuState with base_stat := [("cpu_sec", 0)] }
        [("cpu_sec", 25)] = Except.error e :=
  test_stat_divzero_claim10.2 { cpuState with base_stat := [("cpu_sec", 0)] }
    [("cpu_sec", 25)] "cpu_sec" 2 25 (List.mem_singleton.mpr rfl)
    (by with_unfolding_all decide) (by with_unfolding_all decide)

/-! ### Claims about `add_baseline` -/

/-- Counterexample to C1 as stated: with the configured keys `cpu_sec` and
`total_sec` — which a Python 2.7 dict iterates as `total_sec` first, then
`cpu_sec` (hash-slot order) — and the sample `{"total_sec": 5}`,
`add_baseline` does raise the missing-field error for `cpu_sec`, but the
history of `total_sec`, iterated before the missing key, has already
received the value 5 — the histories are not left unchanged, so the
all-or-nothing part of the claim is false. -/
theorem add_baseline_claim1_cex :
    add_baseline c1state (PyVal.dict [("total_sec", 5)]) =
      Except.error
        ("Failed to add baseline: key \x27cpu_sec\x27 is missing.", c1part) ∧
    c1part.base_history ≠ c1state.base_history := by
  refine ⟨?_, ?_⟩ <;> with_unfolding_all decide

/-- Claim C1 (amended): a non-mapping input fails with the invalid-input
error and leaves the state untouched; a sample missing a configured key
fails with the missing-field error naming the first missing key in iteration
order, and at that point the values of the configured keys iterated before
the missing one have already been appended to their histories (partial
append), while all other histories are unchanged. -/
theorem add_baseline_claim1 :
    (∀ (s : ProcMonStat ℚ) (q : ℚ),
       add_baseline s (PyVal.num q) =
         Except.error ("Stat baseline must be a stat dict.", s))
  ∧ (∀ (s : ProcMonStat ℚ) (d m1 m2 : List (String × ℚ)) (k : String) (mv : ℚ),
       s.multipliers = m1 ++ (k, mv) :: m2 →
       (m1.map Prod.fst).Nodup → k ∉ m1.map Prod.fst →
       (∀ p ∈ m1, (dictGet p.1 d).isSome = true) →
       dictGet k d = none →
       ∃ st, add_baseline s (PyVal.dict d) =
           Except.error
             ("Failed to add baseline: key \x27" ++ k ++ "\x27 is missing.",
              st) ∧
         (∀ k2 mv2 x, (k2, mv2) ∈ m1 → dictGet k2 d = some x →
           dictGet k2 st.base_history =
             (dictGet k2 s.base_history).map (fun l => l ++ [x])) ∧
         (∀ k3, k3 ∉ m1.map Prod.fst →
           dictGet k3 st.base_history = dictGet k3 s.base_history)) := by
  refine ⟨?_, ?_⟩
  · intro s q
    rfl
  · intro s d m1 m2 k mv hsplit hnodup hk hpres hmiss
    obtain ⟨st0, hrun, h1, h2⟩ :=
      addLoop_first_missing d k mv m2 m1 hnodup hk hpres hmiss s.base_history
    refine ⟨{ s with base_history := st0 }, ?_, h1, h2⟩
    rw [add_baseline, hsplit, hrun]

/-- Witness for C1 (amended) at the counterexample input. -/
theorem add_baseline_claim1_witness :
    ∃ st, add_baseline c1state (PyVal.dict [("total_sec", 5)]) =
        Except.error
          ("Failed to add baseline: key \x27" ++ "cpu_sec" ++
           "\x27 is missing.", st) ∧
      (∀ k2 mv2 x, (k2, mv2) ∈ [(("total_sec" : String), (2 : ℚ))] →
         dictGet k2 [(("total_sec" : String), (5 : ℚ))] = some x →
         dictGet k2 st.base_history =
           (dictGet k2 c1state.base_history).map (fun l => l ++ [x])) ∧
      (∀ k3, k3 ∉ [(("total_sec" : String), (2 : ℚ))].map Prod.fst →
         dictGet k3 st.base_history = dictGet k3 c1state.base_history) :=
  add_baseline_claim1.2 c1state [("total_sec", 5)] [("total_sec", 2)] []
    "cpu_sec" 2 rfl (by with_unfolding_all decide)
    (by with_unfolding_all decide) (by with_unfolding_all decide)
    (by with_unfolding_all decide)

/-! ### Claims about `extract_stat` -/

theorem calcStep_mean_error_msg {α : Type} [LinearOrderedField α] {f : α → α}
    {l : List α} {e : String}
    (h : calcStep f ProcMonStatAlg.MEAN l = Except.error e) :
    e = "mean requires at least one data point" ∨
      e = "variance requires at least two data points" := by
  rw [calcStep, pyMean] at h
  by_cases h0 : l.length = 0
  · rw [if_pos h0] at h
    injection h with he
    exact Or.inl he.symm
  · rw [if_neg h0] at h
    rw [pyStdev] at h
    by_cases h2 : l.length < 2
    · rw [if_pos h2] at h
      injection h with he
      exact Or.inr he.symm
    · rw [if_neg h2] at h
      exact absurd h (by simp)

theorem calcLoop_mean_error {α : Type} [LinearOrderedField α] {f : α → α}
    {hist : List (String × List α)} {l : List (String × α)} {k : String}
    {m : α} {e0 : String}
    (hmem : (k, m) ∈ l)
    (hstep : calcStep f ProcMonStatAlg.MEAN ((dictGet k hist).getD []) =
      Except.error e0) :
    ∀ base, ∃ e st, calcLoop f ProcMonStatAlg.MEAN hist l base =
      Except.error (e, st) ∧
      (e = "mean requires at least one data point" ∨
       e = "variance requires at least two data points") := by
  induction l with
  | nil => exact absurd hmem (List.not_mem_nil _)
  | cons km rest ih =>
    intro base
    obtain ⟨k0, m0⟩ := km
    rw [calcLoop]
    cases hs : calcStep f ProcMonStatAlg.MEAN ((dictGet k0 hist).getD []) with
    | error e2 => exact ⟨e2, base, rfl, calcStep_mean_error_msg hs⟩
    | ok v0 =>
      rcases List.mem_cons.mp hmem with heq | htail
      · exfalso
        have hk0 : k0 = k := (congrArg Prod.fst heq).symm
        subst hk0
        rw [hstep] at hs
        exact Except.noConfusion hs
      · exact ih htail (dictSet base k0 v0)

/-- Claim C3: with the max algorithm, a successful `calc_baseline` stores,
for every configured key, a baseline value that is the maximum of that key's
history (an element of the history that bounds every element); and whenever a
configured key's history is empty, `calc_baseline` with the max algorithm
fails, with the empty-sequence error raised by `max()`. -/
theorem calc_baseline_claim3 :
    (∀ (s s2 : ProcMonStat ℝ) (k : String) (m : ℝ) (h : List ℝ),
       s.alg = ProcMonStatAlg.MAX →
       calc_baseline Real.sqrt s = Except.ok s2 →
       (k, m) ∈ s.multipliers → dictGet k s.base_history = some h →
       ∃ v, dictGet k s2.base_stat = some v ∧ v ∈ h ∧ ∀ x ∈ h, x ≤ v)
  ∧ (∀ (s : ProcMonStat ℝ) (k : String) (m : ℝ),
       s.alg = ProcMonStatAlg.MAX → (k, m) ∈ s.multipliers →
       dictGet k s.base_history = some ([] : List ℝ) →
       ∃ st, calc_baseline Real.sqrt s =
         Except.error ("max() arg is an empty sequence", st)) := by
  refine ⟨?_, ?_⟩
  · intro s s2 k m h halg hok hmem hh
    rw [calc_baseline] at hok
    cases hloop : calcLoop Real.sqrt s.alg s.base_history s.multipliers
        s.base_stat with
    | error p =>
      rw [hloop] at hok
      obtain ⟨e, st⟩ := p
      exact absurd hok (by simp)
    | ok base2 =>
      rw [hloop] at hok
      dsimp only at hok
      injection hok with hs2
      cases hstep : calcStep Real.sqrt s.alg ((dictGet k s.base_history).getD [])
        with
      | error e =>
        exfalso
        obtain ⟨e2, st, herr⟩ := calcLoop_error_exists hmem hstep s.base_stat
        rw [hloop] at herr
        exact Except.noConfusion herr
      | ok v =>
        have hget := calcLoop_mem_ok hmem hloop hstep
        rw [halg, hh] at hstep
        rw [calcStep] at hstep
        simp only [Option.getD_some] at hstep
        obtain ⟨hvmem, hvbound⟩ := pyMax_ok hstep
        refine ⟨v, ?_, hvmem, hvbound⟩
        rw [← hs2]
        exact hget
  · intro s k m halg hmem hh
    obtain ⟨st0, herr⟩ := calcLoop_max_error Real.sqrt hmem hh s.base_stat
    rw [calc_baseline, halg, herr]
    exact ⟨_, rfl⟩

/-- Witness for C3: a max-algorithm tracker with history `[1, 3]` for
`cpu_sec` finalizes successfully and stores a baseline value that is a
maximal element of the history. -/
theorem calc_baseline_claim3_witness :
    ∃ s2, calc_baseline Real.sqrt s3w = Except.ok s2 ∧
      ∃ v, dictGet "cpu_sec" s2.base_stat = some v ∧ v ∈ [(1 : ℝ), 3] ∧
        ∀ x ∈ [(1 : ℝ), 3], x ≤ v :=
  ⟨_, rfl, calc_baseline_claim3.1 s3w _ "cpu_sec" 2 [1, 3] rfl rfl
    (List.mem_singleton.mpr rfl) rfl⟩

/-- Claim C4: with the mean algorithm, a successful `calc_baseline` stores,
for every configured key with at least two history samples, the arithmetic
mean of the history plus two times its corrected sample standard deviation;
and whenever a configured key has fewer than two samples, `calc_baseline`
with the mean algorithm fails with one of the two `StatisticsError` messages
of `mean`/`stdev`. -/
theorem calc_baseline_claim4 :
    (∀ (s s2 : ProcMonStat ℝ) (k : String) (m : ℝ) (h : List ℝ),
       s.alg = ProcMonStatAlg.MEAN →
       calc_baseline Real.sqrt s = Except.ok s2 →
       (k, m) ∈ s.multipliers → dictGet k s.base_history = some h →
       2 ≤ h.length →
       dictGet k s2.base_stat = some (specMean h + 2 * specStdev h))
  ∧ (∀ (s : ProcMonStat ℝ) (k : String) (m : ℝ) (h : List ℝ),
       s.alg = ProcMonStatAlg.MEAN → (k, m) ∈ s.multipliers →
       dictGet k s.base_history = some h → h.length < 2 →
       ∃ e st, calc_baseline Real.sqrt s = Except.error (e, st) ∧
         (e = "mean requires at least one data point" ∨
          e = "variance requires at least two data points")) := by
  refine ⟨?_, ?_⟩
  · intro s s2 k m h halg hok hmem hh h2
    rw [calc_baseline] at hok
    cases hloop : calcLoop Real.sqrt s.alg s.base_history s.multipliers
        s.base_stat with
    | error p =>
      rw [hloop] at hok
      obtain ⟨e, st⟩ := p
      exact absurd hok (by simp)
    | ok base2 =>
      rw [hloop] at hok
      dsimp only at hok
      injection hok with hs2
      have hstep : calcStep Real.sqrt s.alg
          ((dictGet k s.base_history).getD []) =
          Except.ok (specMean h + 2 * specStdev h) := by
        rw [halg, hh]
        simp only [Option.getD_some]
        exact calcStep_mean_ok h2
      have hget := calcLoop_mem_ok hmem hloop hstep
      rw [← hs2]
      exact hget
  · intro s k m h halg hmem hh h2
    have hstep : ∃ e0, calcStep Real.sqrt ProcMonStatAlg.MEAN
        ((dictGet k s.base_history).getD []) = Except.error e0 := by
      rw [hh]
      simp only [Option.getD_some]
      exact calcStep_mean_error Real.sqrt h2
    obtain ⟨e0, hstep⟩ := hstep
    obtain ⟨e, st0, herr, hmsg⟩ :=
      calcLoop_mean_error hmem hstep s.base_stat
    rw [calc_baseline, halg, herr]
    exact ⟨e, _, rfl, hmsg⟩

/-- Witness for C4: a mean-algorithm tracker with history `[1, 3]` for
`cpu_sec` finalizes successfully and stores `mean + 2·stdev` of the
history. -/
theorem calc_baseline_claim4_witness :
    ∃ s2, calc_baseline Real.sqrt s4w = Except.ok s2 ∧
      dictGet "cpu_sec" s2.base_stat =
        some (specMean [(1 : ℝ), 3] + 2 * specStdev [(1 : ℝ), 3]) :=
  ⟨_, rfl, calc_baseline_claim4.1 s4w _ "cpu_sec" 2 [1, 3] rfl rfl
    (List.mem_singleton.mpr rfl) rfl (le_refl 2)⟩

/-- Claim C8: after every successful `calc_baseline`, regardless of algorithm
and of the prior history lengths, every history sequence is empty and the
readiness flag is set. -/
theorem calc_baseline_claim8 :
    ∀ s s2 : ProcMonStat ℝ, calc_baseline Real.sqrt s = Except.ok s2 →
      (∀ p ∈ s2.base_history, p.2 = ([] : List ℝ)) ∧ s2.base_ready = true := by
  intro s s2 hok
  rw [calc_baseline] at hok
  cases hloop : calcLoop Real.sqrt s.alg s.base_history s.multipliers
      s.base_stat with
  | error p =>
    rw [hloop] at hok
    obtain ⟨e, st⟩ := p
    exact absurd hok (by simp)
  | ok base2 =>
    rw [hloop] at hok
    dsimp only at hok
    injection hok with hs2
    subst hs2
    refine ⟨?_, rfl⟩
    intro p hp
    simp only [List.mem_map] at hp
    obtain ⟨q, _, hq⟩ := hp
    rw [← hq]

/-- Witness for C8: the tracker `s8w` finalizes successfully; afterwards its
histories are all empty and the readiness flag is set. -/
theorem calc_baseline_claim8_witness :
    ∃ s2, calc_baseline Real.sqrt s8w = Except.ok s2 ∧
      (∀ p ∈ s2.base_history, p.2 = ([] : List ℝ)) ∧ s2.base_ready = true :=
  ⟨_, rfl, calc_baseline_claim8 s8w _ rfl⟩
